import Mathlib

/-!
Verification of the `belong` static-site generator's document model.

Strings from the Rust source are modelled as `List Char`; filesystem paths as
lists of path components (`List String`); the filesystem itself as a partial
map `Path → Option (List Char)` standing for `fs::read_to_string`.  Error
values (`anyhow::Error` with its context chain) are modelled as the list of
context messages, outermost first.  External crates (`toml`, `serde`) are
modelled as explicit function parameters where a claim needs them.
-/

namespace Belong

/-- A filesystem path, as its list of components.  Display uses the Unix
separator. -/
abbrev Path : Type := List String

/-- `Path::display()` (Unix separator). -/
def displayPath (p : Path) : String := String.intercalate "/" p

/-- An `anyhow::Error` with its chain of `.context(...)` messages, outermost
first. -/
structure Err where
  ctx : List String
deriving DecidableEq

deriving instance DecidableEq for Except

/-- `anyhow` `with_context`: pushes a new outermost context message. -/
def Err.withContext (msg : String) (e : Err) : Err := ⟨msg :: e.ctx⟩

/-! ## Character classes used by the regexes in the source -/

/-- Rust regex `\s` (Unicode `White_Space`). -/
def isWsChar (c : Char) : Bool :=
  c = ' ' ∨ c = '\t' ∨ c = '\n' ∨ c = '\x0b' ∨ c = '\x0c' ∨ c = '\r' ∨
  c = '\x85' ∨ c = '\xa0' ∨ c.val = 0x1680 ∨
  (0x2000 ≤ c.val ∧ c.val ≤ 0x200a) ∨ c.val = 0x2028 ∨ c.val = 0x2029 ∨
  c.val = 0x202f ∨ c.val = 0x205f ∨ c.val = 0x3000

/-- Rust regex `.` without `(?s)`: any character except a line feed. -/
def isDotChar (c : Char) : Bool := c ≠ '\n'

/-- Rust regex `[a-zA-Z0-9_]`. -/
def isWordChar (c : Char) : Bool :=
  ('a' ≤ c ∧ c ≤ 'z') ∨ ('A' ≤ c ∧ c ≤ 'Z') ∨ ('0' ≤ c ∧ c ≤ '9') ∨ c = '_'

/-! ## Small string utilities mirrored from `std` -/

/-- `str::splitn(2, sep)`: the part before the first `sep`, and—if `sep`
occurs—the part after it. -/
def splitOnce (sep : Char) : List Char → List Char × Option (List Char)
  | [] => ([], none)
  | c :: rest =>
    if c = sep then ([], some rest)
    else
      let r := splitOnce sep rest
      (c :: r.1, r.2)

/-- `usize::from_str`: an optional leading `+`, then one or more ASCII digits,
rejecting values above `usize::MAX` (64-bit). -/
def parseUsize (s : List Char) : Option Nat :=
  let digits := match s with
    | '+' :: rest => rest
    | other => other
  if digits = [] then none
  else if digits.all (fun c => c.isDigit) then
    let n := digits.foldl (fun acc c => acc * 10 + (c.toNat - 48)) 0
    if n < 2 ^ 64 then some n else none
  else none

/-- `str::lines()`: split on `'\n'`, drop a final empty piece produced by a
trailing newline, and strip one trailing `'\r'` from each line. -/
def splitOnNl : List Char → List (List Char)
  | [] => [[]]
  | c :: rest =>
    if c = '\n' then [] :: splitOnNl rest
    else
      match splitOnNl rest with
      | a :: as => (c :: a) :: as
      | [] => [[c]]

def stripCr (l : List Char) : List Char :=
  if l.getLast? = some '\r' then l.dropLast else l

def rustLines (s : List Char) : List (List Char) :=
  if s = [] then []
  else
    let parts := splitOnNl s
    let parts := if s.getLast? = some '\n' then parts.dropLast else parts
    parts.map stripCr

/-! ## `preprocess.rs`: line ranges and include directives -/

/-- `LineRange` from `preprocess.rs`, with the payloads of the four `std::ops`
range forms inlined. -/
inductive LineRange where
  | range (start stop : Nat)
  | rangeFrom (start : Nat)
  | rangeTo (stop : Nat)
  | rangeFull
deriving DecidableEq

/-- `LineRange::from_str`.  The argument is `parts.next()` of the second
`splitn`, i.e. everything after the first colon of the include arguments. -/
def LineRange.fromStr (parts : Option (List Char)) : Except Err LineRange :=
  let s := parts.getD []
  let p := splitOnce ':' s
  let startR : Except Err (Option Nat) :=
    if p.1 = [] then .ok none
    else
      match parseUsize p.1 with
      -- less 1 because line numbers start at 1 (saturating subtraction)
      | some n => .ok (some (n - 1))
      | none => .error ⟨["failed to parse start line number"]⟩
  match startR with
  | .error e => .error e
  | .ok start =>
    match start, p.2 with
    | none, none => .ok .rangeFull
    | some s, none => .ok (.range s (s + 1))
    | some s, some [] => .ok (.rangeFrom s)
    | none, some e =>
      match parseUsize e with
      | some n => .ok (.rangeTo n)
      | none => .error ⟨["failed to parse end line number"]⟩
    | some s, some e =>
      match parseUsize e with
      | some n => .ok (.range s n)
      | none => .error ⟨["failed to parse end line number"]⟩

/-- `LineRange::start` (via `RangeBounds::start_bound`). -/
def LineRange.start : LineRange → Nat
  | .range s _ => s
  | .rangeFrom s => s
  | .rangeTo _ => 0
  | .rangeFull => 0

/-- `LineRange::end` (via `RangeBounds::end_bound`); named `stop` because
`end` is reserved. -/
def LineRange.stop : LineRange → Option Nat
  | .range _ e => some e
  | .rangeFrom _ => none
  | .rangeTo e => some e
  | .rangeFull => none

/-- The `Include` directive: a target path (kept as the raw argument text, as
`PathBuf::from` does) and a line range. -/
structure Include where
  path : List Char
  line_range : LineRange
deriving DecidableEq

/-- `Include::from_str`. -/
def Include.fromStr (args : List Char) : Except Err Include :=
  let p := splitOnce ':' args
  match LineRange.fromStr p.2 with
  | .ok lr => .ok ⟨p.1, lr⟩
  | .error e => .error e

/-- `Include::extract`: keep the selected lines, joined by a newline, with no
trailing newline added.  `Nat` subtraction is saturating, matching
`saturating_sub`. -/
def Include.extract (contents : List Char) (lr : LineRange) : List Char :=
  let start := lr.start
  let ls := (rustLines contents).drop start
  let sel := match lr.stop with
    | some e => ls.take (e - start)
    | none => ls
  List.intercalate ['\n'] sel

/-! ## The directive regex

`find_directives` scans with the regex
    (two open braces) \s* # name:[a-zA-Z0-9_]+ \s+ ( args:.* \s* ) (two close braces)
using leftmost-first (Perl-style preference) semantics as implemented by the
`regex` crate: greedy pieces try the longest alternative first, backtracking
on failure of the remainder. -/

def wsCount (l : List Char) : Nat := (l.takeWhile isWsChar).length
def dotCount (l : List Char) : Nat := (l.takeWhile isDotChar).length
def wordCount (l : List Char) : Nat := (l.takeWhile isWordChar).length

/-- Try to match the directive regex at the head of `l`; on success return the
directive name, the `args` capture, and the total length of the match.
The nested descending searches realise the backtracking priority order of
`\s+` then `.*` then `\s*` before the closing braces. -/
def matchDirAt (l : List Char) : Option (String × List Char × Nat) :=
  if l.take 2 = ['{', '{'] then
    let r1 := l.drop 2
    let w := wsCount r1
    match r1.drop w with
    | '#' :: r2 =>
      let n := wordCount r2
      if n = 0 then none
      else
        let name := String.mk (r2.take n)
        let r3 := r2.drop n
        let maxA := wsCount r3
        let res := (List.range maxA).findSome? (fun i =>
          let a := maxA - i
          let r4 := r3.drop a
          let maxB := dotCount r4
          (List.range (maxB + 1)).findSome? (fun j =>
            let b := maxB - j
            let r5 := r4.drop b
            let maxC := wsCount r5
            (List.range (maxC + 1)).findSome? (fun m =>
              let c := maxC - m
              if (r5.drop c).take 2 = ['}', '}'] then
                some (r4.take b, a + b + c + 2)
              else none)))
        match res with
        | some (args, len2) => some (name, args, 2 + w + 1 + n + len2)
        | none => none
    | _ => none
  else none

/-- One raw regex match: its byte offset, matched text, captured name and
args, and length. -/
structure DirMatch where
  start : Nat
  text : List Char
  name : String
  args : List Char
  len : Nat
deriving DecidableEq

/-- `Regex::captures_iter`: repeatedly find the leftmost match, then continue
scanning from its end.  Fueled by the input length; every match consumes at
least one character, so the fuel never runs out. -/
def scanAux : Nat → List Char → Nat → List DirMatch
  | 0, _, _ => []
  | fuel + 1, l, pos =>
    match matchDirAt l with
    | some (name, args, len) =>
      ⟨pos, l.take len, name, args, len⟩ :: scanAux fuel (l.drop len) (pos + len)
    | none =>
      match l with
      | [] => []
      | _ :: rest => scanAux fuel rest (pos + 1)

def findMatches (contents : List Char) : List DirMatch :=
  scanAux contents.length contents 0

/-- A retained directive: a successfully parsed include plus its match span
(`Directive::range`). -/
structure Directive where
  inc : Include
  start : Nat
  len : Nat
deriving DecidableEq

/-- Warnings emitted by `find_directives` via `log::warn!`. -/
inductive Warning where
  | failedParseInclude (matchedText : List Char)
  | unrecognizedDirective (name : String)
deriving DecidableEq

/-- `find_directives`: keep the successfully parsed `include` directives,
logging (not failing) on a malformed include or an unrecognized name. -/
def processMatches : List DirMatch → List Directive × List Warning
  | [] => ([], [])
  | m :: rest =>
    let r := processMatches rest
    if m.name = "include" then
      match Include.fromStr m.args with
      | .ok inc => (⟨inc, m.start, m.len⟩ :: r.1, r.2)
      | .error _ => (r.1, Warning.failedParseInclude m.text :: r.2)
    else (r.1, Warning.unrecognizedDirective m.name :: r.2)

def findDirectives (contents : List Char) : List Directive × List Warning :=
  processMatches (findMatches contents)

/-! ## Configuration (`config.rs`) -/

/-- The subset of `toml::Value` needed as the open key/value bag (`rest`
fields); the `toml` crate itself is external to the repository. -/
inductive TomlValue where
  | table (kvs : List (String × TomlValue))
  | str (s : String)
  | int (n : Int)
  | boolean (b : Bool)
  | array (elems : List TomlValue)

/-- `TomlValueExt::default`: the empty table. -/
def TomlValue.default : TomlValue := .table []

structure ProjectConfig where
  title : Option String
  authors : Option (List String)

structure RawConfig where
  project : ProjectConfig
  rest : TomlValue

/-- `RawConfig::default`. -/
def RawConfig.default : RawConfig := ⟨⟨none, none⟩, TomlValue.default⟩

structure Config where
  root_dir : Path
  inner : RawConfig

/-- `Config::src_dir`. -/
def Config.src_dir (c : Config) : Path := c.root_dir ++ ["src"]

/-- `util::FromPath::from_path` instantiated at `RawConfig`: read the file
(modelled by the partial map `fs`), then parse it with the external TOML
deserializer `parse`, adding the contexts of `util.rs`. -/
def RawConfig.from_path (parse : List Char → Except Err RawConfig)
    (fs : Path → Option (List Char)) (p : Path) : Except Err RawConfig :=
  match fs p with
  | none => .error ⟨["failed to read file"]⟩
  | some s =>
    match parse s with
    | .ok c => .ok c
    | .error e => .error (e.withContext "failed to parse file contents")

/-- `Config::from_path`: loads `<root>/belong.toml`. -/
def Config.from_path (parse : List Char → Except Err RawConfig)
    (fs : Path → Option (List Char)) (root_dir : Path) : Except Err Config :=
  let p : Path := root_dir ++ ["belong.toml"]
  match RawConfig.from_path parse fs p with
  | .ok inner => .ok ⟨root_dir, inner⟩
  | .error e =>
    .error (e.withContext ("failed to load config file `" ++ displayPath p ++ "`"))

/-! ## Pages (`app.rs`) and preprocessing (`preprocess.rs`) -/

/-- `chrono::NaiveDate` (external crate), as plain year/month/day. -/
structure NaiveDate where
  year : Int
  month : Nat
  day : Nat

/-- `FrontMatter` from `app.rs`. -/
structure FrontMatter where
  title : Option String
  description : Option String
  date : Option NaiveDate
  kind : Option String
  rest : TomlValue

/-- `FrontMatter::default`. -/
def FrontMatter.default : FrontMatter := ⟨none, none, none, none, TomlValue.default⟩

/-- `Page` from `app.rs`. -/
structure Page where
  path : Path
  front_matter : FrontMatter
  contents : List Char

/-- `PathBuf::from(<string>)` followed by component iteration under OS path
resolution: split on `/`, dropping empty and `.` segments. -/
def pathComps (s : List Char) : Path :=
  ((String.mk s).splitOn "/").filter (fun seg => seg != "" && seg != ".")

/-- `Include::read`: resolve the target relative to the directory containing
the page, read it (`fs`), and extract the line range. -/
def Include.read (fs : Path → Option (List Char)) (pagePath : Path)
    (inc : Include) : Except Err (List Char) :=
  let p : Path := pagePath.dropLast ++ pathComps inc.path
  match fs p with
  | none => .error ⟨["failed to read from `" ++ displayPath p ++ "`"]⟩
  | some contents => .ok (Include.extract contents inc.line_range)

/-- The substitution loop of `preprocess`: copy the gap before each directive
verbatim, then the resolved include text, finally the tail after the last
directive. -/
def preprocessGo (fs : Path → Option (List Char)) (pagePath : Path)
    (contents : List Char) :
    List Directive → Nat → List Char → Except Err (List Char)
  | [], prev, acc => .ok (acc ++ contents.drop prev)
  | d :: ds, prev, acc =>
    let gap := (contents.drop prev).take (d.start - prev)
    match Include.read fs pagePath d.inc with
    | .error e => .error e
    | .ok t => preprocessGo fs pagePath contents ds (d.start + d.len) (acc ++ gap ++ t)

/-- Free function `preprocess` from `preprocess.rs`. -/
def preprocess (fs : Path → Option (List Char)) (config : Config) (path : Path)
    (contents : List Char) : Except Err (List Char) :=
  preprocessGo fs (config.src_dir ++ path) contents (findDirectives contents).1 0 []

/-- `Page::preprocess`. -/
def Page.preprocess (fs : Path → Option (List Char)) (config : Config)
    (page : Page) : Except Err Page :=
  match Belong.preprocess fs config page.path page.contents with
  | .ok c => .ok ⟨page.path, page.front_matter, c⟩
  | .error e =>
    .error (e.withContext
      ("failed to preprocess page `" ++ displayPath page.path ++ "`"))

/-! ## Front matter (`app.rs`)

`RawPage::from_str` matches the anchored regex
    ^ \s* +++ ( (?s).* ) +++ (\r?\n)+ ( (?s).* ) $
group 1 is the TOML text, group 3 the page contents.  Group 1 is greedy, so
the closing delimiter chosen is the *last* position where `+++` is followed
by at least one line ending. -/

/-- Total characters consumed by the greedy `(\r?\n)+` (0 when it cannot
match even once). -/
def newlineMunch : List Char → Nat
  | '\r' :: '\n' :: rest => 2 + newlineMunch rest
  | '\n' :: rest => 1 + newlineMunch rest
  | _ => 0

/-- `r` admits the closing delimiter at offset `k`: three plus signs followed
by at least one line ending. -/
def closeAt (r : List Char) (k : Nat) : Prop :=
  (r.drop k).take 3 = ['+', '+', '+'] ∧ 0 < newlineMunch (r.drop (k + 3))

instance (r : List Char) (k : Nat) : Decidable (closeAt r k) := by
  unfold closeAt; exact instDecidableAnd

/-- The largest offset `j ≤ k` with `closeAt r j`, i.e. the split the greedy
group 1 settles on. -/
def lastClose (r : List Char) : Nat → Option Nat
  | 0 => if closeAt r 0 then some 0 else none
  | k + 1 => if closeAt r (k + 1) then some (k + 1) else lastClose r k

/-- Match the front-matter regex against the entire input; on success return
(group 1, the matched line endings, group 3). -/
def rawPageMatch (s : List Char) : Option (List Char × List Char × List Char) :=
  let r0 := s.dropWhile isWsChar
  if r0.take 3 = ['+', '+', '+'] then
    let r := r0.drop 3
    match lastClose r r.length with
    | some k =>
      let tail := r.drop (k + 3)
      let m := newlineMunch tail
      some (r.take k, tail.take m, tail.drop m)
    | none => none
  else none

structure RawPage where
  front_matter : FrontMatter
  contents : List Char

/-- `RawPage::from_str`, with the external TOML front-matter deserializer as
the parameter `pfm`. -/
def RawPage.fromStr (pfm : List Char → Except Err FrontMatter) (s : List Char) :
    Except Err RawPage :=
  match rawPageMatch s with
  | some (g1, _, g3) =>
    match pfm g1 with
    | .ok fm => .ok ⟨fm, g3⟩
    | .error e => .error (e.withContext "failed to parse front matter")
  | none => .ok ⟨FrontMatter.default, s⟩

/-- `impl fmt::Display for FrontMatter`: `+++\n`, the TOML serialization
(external serializer `ser`), `+++\n`. -/
def FrontMatter.render (ser : FrontMatter → List Char) (fm : FrontMatter) :
    List Char :=
  ['+', '+', '+', '\n'] ++ ser fm ++ ['+', '+', '+', '\n']

/-- `l` is a (possibly empty) sequence of `\r?\n` line endings. -/
def isNlRun : List Char → Bool
  | [] => true
  | '\r' :: '\n' :: rest => isNlRun rest
  | '\n' :: rest => isNlRun rest
  | _ => false

/-- What it means for a document to contain a `+++`-delimited front-matter
block, stated structurally: optional leading whitespace, the opening
delimiter, a body, the closing delimiter, at least one line ending, and the
rest of the document. -/
def HasFrontMatterBlock (s : List Char) : Prop :=
  ∃ w t n r, (∀ c ∈ w, isWsChar c = true) ∧ isNlRun n = true ∧ n ≠ [] ∧
    s = w ++ ['+', '+', '+'] ++ t ++ ['+', '+', '+'] ++ n ++ r

/-! ## URL derivation (`theme.rs`) -/

/-- The last index of `'.'` in a file name, if any. -/
def lastDotIdx (l : List Char) : Option Nat :=
  (l.reverse.findIdx? (fun c => c = '.')).map (fun i => l.length - 1 - i)

/-- `Path::file_stem` for a normal file-name component: the portion before
the last `.`, except that a leading `.` with no later `.` is part of the
stem. -/
def fileStemChars (l : List Char) : List Char :=
  match lastDotIdx l with
  | some i => if i = 0 then l else l.take i
  | none => l

/-- `Path::with_extension(ext)` on a component list: replace the extension of
the last component; a path without a file name (empty, or ending in `..`) is
returned unchanged, as `set_extension` returns `false` there. -/
def withExtension (p : Path) (ext : String) : Path :=
  match p.getLast? with
  | none => p
  | some last =>
    if last = ".." then p
    else p.dropLast ++ [String.mk (fileStemChars last.data) ++ "." ++ ext]

/-- A path component that `std::path` classifies as `Component::Normal`
(`/` stands for `RootDir`). -/
def isNormalSeg (s : String) : Bool :=
  s != "" && s != "/" && s != "." && s != ".."

/-- `Page::url_path`: swap the extension for `.html` and join the components
with `/`.  (The non-UTF-8 failure branch cannot arise for Lean strings.) -/
def Page.url_path (path : Path) : String :=
  String.intercalate "/" (withExtension path "html")

/-- The fold of `Page::url_path_to_root` over the parent's components;
`none` models the `panic!` on a non-normal component. -/
def urlPathToRootGo : List String → String → Option String
  | [], acc => some acc
  | c :: rest, acc =>
    if isNormalSeg c then urlPathToRootGo rest (acc ++ "../") else none

/-- `Page::url_path_to_root`; `none` models the panics (`parent().unwrap()`
on an empty path, or a non-normal component). -/
def Page.url_path_to_root (path : Path) : Option String :=
  match path with
  | [] => none
  | _ => urlPathToRootGo path.dropLast ""

/-- `n` copies of `../`. -/
def upDirs : Nat → String
  | 0 => ""
  | n + 1 => "../" ++ upDirs n

/-- The outermost context message of a failed computation, if it failed. -/
def errCtxHead {α : Type} : Except Err α → Option String
  | .error e => e.ctx.head?
  | .ok _ => none

/-! ## Helper lemmas -/

@[simp] theorem isOk_ok {α : Type} (a : α) : (Except.ok a : Except Err α).isOk = true := rfl

@[simp] theorem isOk_error {α : Type} (e : Err) :
    (Except.error e : Except Err α).isOk = false := rfl

theorem preprocessGo_error_iff (fs : Path → Option (List Char)) (pp : Path)
    (contents : List Char) :
    ∀ (ds : List Directive) (prev : Nat) (acc : List Char),
      (preprocessGo fs pp contents ds prev acc).isOk = false ↔
        ∃ d ∈ ds, fs (pp.dropLast ++ pathComps d.inc.path) = none := by
  intro ds
  induction ds with
  | nil => intro prev acc; simp [preprocessGo, Except.isOk]
  | cons d ds ih =>
    intro prev acc
    simp only [preprocessGo, Include.read]
    cases hfs : fs (pp.dropLast ++ pathComps d.inc.path) with
    | none => simp [Except.isOk, hfs]
    | some s => simp [Except.isOk, hfs, ih]

theorem preprocess_fn_error_iff (fs : Path → Option (List Char)) (config : Config)
    (path : Path) (contents : List Char) :
    (Belong.preprocess fs config path contents).isOk = false ↔
      ∃ d ∈ (findDirectives contents).1,
        fs ((config.src_dir ++ path).dropLast ++ pathComps d.inc.path) = none := by
  unfold Belong.preprocess
  exact preprocessGo_error_iff fs (config.src_dir ++ path) contents _ 0 []

theorem page_preprocess_isOk_eq (fs : Path → Option (List Char)) (config : Config)
    (page : Page) :
    (Page.preprocess fs config page).isOk =
      (Belong.preprocess fs config page.path page.contents).isOk := by
  unfold Page.preprocess
  cases h : Belong.preprocess fs config page.path page.contents <;> simp [Except.isOk]

theorem processMatches_all_bad (ms : List DirMatch)
    (h : ∀ m ∈ ms, m.name ≠ "include" ∨ (Include.fromStr m.args).isOk = false) :
    (processMatches ms).1 = [] ∧ (processMatches ms).2.length = ms.length := by
  induction ms with
  | nil => simp [processMatches]
  | cons m ms ih =>
    have hm := h m (List.mem_cons_self m ms)
    have ht := ih (fun x hx => h x (List.mem_cons_of_mem m hx))
    simp only [processMatches]
    by_cases hname : m.name = "include"
    · rcases hm with h1 | h2
      · exact absurd hname h1
      · cases hfrom : Include.fromStr m.args with
        | ok v => rw [hfrom] at h2; simp [Except.isOk] at h2
        | error e => simp [hname, hfrom, ht.1, ht.2]
    · simp [hname, ht.1, ht.2]

theorem closeAt_length_le {r : List Char} {k : Nat} (h : closeAt r k) :
    k + 3 ≤ r.length := by
  obtain ⟨h1, _⟩ := h
  have h2 := congrArg List.length h1
  simp only [List.length_take, List.length_drop, List.length_cons,
    List.length_nil] at h2
  omega

theorem lastClose_spec {r : List Char} :
    ∀ {k j : Nat}, lastClose r k = some j →
      closeAt r j ∧ j ≤ k ∧ ∀ i, j < i → i ≤ k → ¬ closeAt r i := by
  intro k
  induction k with
  | zero =>
    intro j h
    by_cases hc : closeAt r 0
    · simp only [lastClose, if_pos hc, Option.some.injEq] at h
      subst h
      exact ⟨hc, Nat.le_refl 0, fun i h1 h2 => absurd (Nat.lt_of_lt_of_le h1 h2) (by omega)⟩
    · simp [lastClose, hc] at h
  | succ k ih =>
    intro j h
    by_cases hc : closeAt r (k + 1)
    · simp only [lastClose, if_pos hc, Option.some.injEq] at h
      subst h
      exact ⟨hc, Nat.le_refl _, fun i h1 h2 => by omega⟩
    · simp only [lastClose, if_neg hc] at h
      obtain ⟨hj, hle, hmax⟩ := ih h
      refine ⟨hj, Nat.le_trans hle (Nat.le_succ k), fun i h1 h2 => ?_⟩
      rcases Nat.lt_or_ge i (k + 1) with h3 | h3
      · exact hmax i h1 (by omega)
      · have h4 : i = k + 1 := by omega
        subst h4
        exact hc

theorem lastClose_eq_some {r : List Char} {j : Nat} (hj : closeAt r j) :
    ∀ {k : Nat}, j ≤ k → (∀ i, j < i → i ≤ k → ¬ closeAt r i) →
      lastClose r k = some j := by
  intro k
  induction k with
  | zero =>
    intro hle _
    have h0 : j = 0 := Nat.le_zero.mp hle
    subst h0
    simp [lastClose, hj]
  | succ k ih =>
    intro hle hmax
    by_cases hc : closeAt r (k + 1)
    · have h1 : j = k + 1 := by
        by_contra hne
        exact hmax (k + 1) (by omega) (Nat.le_refl _) hc
      subst h1
      simp [lastClose, hc]
    · have hjk : j ≤ k := by
        rcases Nat.lt_or_ge j (k + 1) with h3 | h3
        · omega
        · have h4 : j = k + 1 := by omega
          subst h4
          exact absurd hj hc
      simp only [lastClose, if_neg hc]
      exact ih hjk (fun i h1 h2 => hmax i h1 (by omega))

theorem newlineMunch_nil : newlineMunch [] = 0 := rfl

theorem isNlRun_take_munch (l : List Char) : isNlRun (l.take (newlineMunch l)) = true := by
  induction l using newlineMunch.induct with
  | case1 rest ih =>
    show isNlRun (('\r' :: '\n' :: rest).take (2 + newlineMunch rest)) = true
    rw [show 2 + newlineMunch rest = newlineMunch rest + 1 + 1 by omega]
    simpa [List.take_succ_cons, isNlRun] using ih
  | case2 rest ih =>
    show isNlRun (('\n' :: rest).take (1 + newlineMunch rest)) = true
    rw [show 1 + newlineMunch rest = newlineMunch rest + 1 by omega]
    simpa [List.take_succ_cons, isNlRun] using ih
  | case3 l h1 h2 => simp [newlineMunch, h1, h2, isNlRun]

/-- The full characterization of a successful front-matter regex match:
the input decomposes into leading whitespace, the opening delimiter, group 1,
the closing delimiter, a nonempty run of line endings, and group 3 running to
end of input; and no closing delimiter occurs after the chosen one, so any
`+++` occurring earlier lies inside group 1 (the metadata body). -/
theorem rawPageMatch_spec {s g1 n g3 : List Char}
    (h : rawPageMatch s = some (g1, n, g3)) :
    (∃ w, (∀ c ∈ w, isWsChar c = true) ∧
      s = w ++ ['+', '+', '+'] ++ g1 ++ ['+', '+', '+'] ++ n ++ g3)
    ∧ isNlRun n = true ∧ n ≠ []
    ∧ ∀ k, g1.length < k → ¬ closeAt (g1 ++ ['+', '+', '+'] ++ n ++ g3) k := by
  simp only [rawPageMatch] at h
  by_cases h3 : (s.dropWhile isWsChar).take 3 = ['+', '+', '+']
  case neg => rw [if_neg h3] at h; exact absurd h (by simp)
  rw [if_pos h3] at h
  cases hlc : lastClose ((s.dropWhile isWsChar).drop 3)
      ((s.dropWhile isWsChar).drop 3).length with
  | none => rw [hlc] at h; exact absurd h (by simp)
  | some k =>
    rw [hlc] at h
    simp only [Option.some.injEq, Prod.mk.injEq] at h
    obtain ⟨hg1, hn, hg3⟩ := h
    obtain ⟨hck, hkle, hmax⟩ := lastClose_spec hlc
    set r := (s.dropWhile isWsChar).drop 3 with hrdef
    have hk3 : k + 3 ≤ r.length := closeAt_length_le hck
    have hmunch : 0 < newlineMunch (r.drop (k + 3)) := hck.2
    -- the tail of the input after the closing delimiter
    have htail : r.drop k = ['+', '+', '+'] ++ (r.drop (k + 3)) := by
      conv_lhs => rw [← List.take_append_drop 3 (r.drop k)]
      rw [hck.1, List.drop_drop]
    have hrdecomp : r = g1 ++ ['+', '+', '+'] ++ n ++ g3 := by
      subst hg1 hn hg3
      conv_lhs => rw [← List.take_append_drop k r]
      rw [htail, ← List.take_append_drop (newlineMunch (r.drop (k + 3))) (r.drop (k + 3))]
      simp [List.append_assoc]
    have hg1len : g1.length = k := by
      subst hg1
      simp only [List.length_take]
      omega
    refine ⟨⟨s.takeWhile isWsChar, fun c hc => List.mem_takeWhile_imp hc, ?_⟩,
      ?_, ?_, ?_⟩
    · conv_lhs => rw [← List.takeWhile_append_dropWhile isWsChar s]
      rw [show s.dropWhile isWsChar =
            (s.dropWhile isWsChar).take 3 ++ (s.dropWhile isWsChar).drop 3 from
          (List.take_append_drop 3 (s.dropWhile isWsChar)).symm]
      rw [h3, ← hrdef, hrdecomp]
      simp [List.append_assoc]
    · subst hn
      exact isNlRun_take_munch (r.drop (k + 3))
    · subst hn
      have hne : r.drop (k + 3) ≠ [] := by
        intro hnil
        rw [hnil, newlineMunch_nil] at hmunch
        omega
      rw [Ne, List.take_eq_nil_iff]
      push_neg
      exact ⟨by omega, hne⟩
    · intro i hi
      rw [← hrdecomp]
      intro hcl
      rcases Nat.lt_or_ge r.length i with hbig | hsmall
      · exact absurd (closeAt_length_le hcl) (by omega)
      · exact hmax i (by omega) hsmall hcl

/-- A successful match exhibits a structural front-matter block. -/
theorem rawPageMatch_hasBlock {s g1 n g3 : List Char}
    (h : rawPageMatch s = some (g1, n, g3)) : HasFrontMatterBlock s := by
  obtain ⟨⟨w, hw, hs⟩, hnl, hne, _⟩ := rawPageMatch_spec h
  exact ⟨w, g1, n, g3, hw, hnl, hne, hs⟩

/-- A document containing a front-matter block contains a plus sign. -/
theorem hasBlock_mem_plus {s : List Char} (h : HasFrontMatterBlock s) : '+' ∈ s := by
  obtain ⟨w, t, n, r, _, _, _, hs⟩ := h
  subst hs
  simp

/-! ## Claims about configuration loading and preprocessing -/

/-- C1 (counterexample): with the configuration file entirely absent
(`fs` maps every path, in particular `<root>/belong.toml`, to `none`) and a
TOML parser that would succeed on any input, `Config::from_path` still
returns an error, contradicting the claim that a missing file yields the
default configuration rather than an error. -/
theorem config_missing_file_is_error :
    ((fun (_ : Path) => (none : Option (List Char)))
        (([] : Path) ++ ["belong.toml"]) = none)
    ∧ (Config.from_path (fun _ => .ok RawConfig.default) (fun _ => none)
        []).isOk = false :=
  ⟨rfl, rfl⟩

/-- C1 (amended): loading a project's configuration errors if and only if the
configuration file is missing, or present but malformed; a present and
parseable file loads successfully. -/
theorem config_load_error_iff (parse : List Char → Except Err RawConfig)
    (fs : Path → Option (List Char)) (root_dir : Path) :
    (Config.from_path parse fs root_dir).isOk = false ↔
      (fs (root_dir ++ ["belong.toml"]) = none ∨
        ∃ s, fs (root_dir ++ ["belong.toml"]) = some s ∧ (parse s).isOk = false) := by
  unfold Config.from_path RawConfig.from_path
  cases hfs : fs (root_dir ++ ["belong.toml"]) with
  | none => simp [hfs, Except.isOk]
  | some s => cases hp : parse s <;> simp [hfs, hp, Except.isOk]

/-- C2: preprocessing a page fails if and only if some successfully parsed
include directive's target file cannot be read, and any such error carries
the outermost context `failed to preprocess page <path>`. -/
theorem page_preprocess_error_iff (fs : Path → Option (List Char))
    (config : Config) (page : Page) :
    ((Page.preprocess fs config page).isOk = false ↔
      ∃ d ∈ (findDirectives page.contents).1,
        fs ((config.src_dir ++ page.path).dropLast ++ pathComps d.inc.path) = none)
    ∧ ((Page.preprocess fs config page).isOk = false →
        errCtxHead (Page.preprocess fs config page) =
          some ("failed to preprocess page `" ++ displayPath page.path ++ "`")) := by
  constructor
  · rw [page_preprocess_isOk_eq]
    exact preprocess_fn_error_iff fs config page.path page.contents
  · intro he
    unfold Page.preprocess at he ⊢
    cases hp : Belong.preprocess fs config page.path page.contents with
    | ok c => rw [hp] at he; exact absurd he (by simp)
    | error e0 => rfl

/-- C2 (witness): a page whose single directive is a well-formed include of
an unreadable file fails to preprocess, with the stated context message. -/
theorem page_preprocess_error_iff_witness :
    ((Page.preprocess (fun _ => none) ⟨[], RawConfig.default⟩
        ⟨["p.md"], FrontMatter.default, ("\x7b\x7b #include f\x7d\x7d").data⟩).isOk
      = false)
    ∧ errCtxHead (Page.preprocess (fun _ => none) ⟨[], RawConfig.default⟩
        ⟨["p.md"], FrontMatter.default, ("\x7b\x7b #include f\x7d\x7d").data⟩) =
      some ("failed to preprocess page `p.md`") :=
  ⟨(page_preprocess_error_iff (fun _ => none) ⟨[], RawConfig.default⟩
      ⟨["p.md"], FrontMatter.default, ("\x7b\x7b #include f\x7d\x7d").data⟩).1.mpr
      (by decide),
   ((page_preprocess_error_iff (fun _ => none) ⟨[], RawConfig.default⟩
      ⟨["p.md"], FrontMatter.default, ("\x7b\x7b #include f\x7d\x7d").data⟩).2
      (by decide)).trans (by decide)⟩

/-- C3: if every directive occurrence in a page is either not an `include`
or an `include` whose arguments fail to parse, then no directive is
retained, preprocessing succeeds returning the page verbatim (every
directive's span untouched), and exactly one warning is logged per
occurrence. -/
theorem preprocess_skips_bad_directives (fs : Path → Option (List Char))
    (config : Config) (page : Page)
    (h : ∀ m ∈ findMatches page.contents,
      m.name ≠ "include" ∨ (Include.fromStr m.args).isOk = false) :
    (findDirectives page.contents).1 = []
    ∧ Page.preprocess fs config page = .ok page
    ∧ (findDirectives page.contents).2.length = (findMatches page.contents).length := by
  obtain ⟨h1, h2⟩ := processMatches_all_bad (findMatches page.contents) h
  refine ⟨h1, ?_, h2⟩
  unfold Page.preprocess Belong.preprocess
  rw [show (findDirectives page.contents).1 = [] from h1]
  simp [preprocessGo]

/-- C3 (witness): a page containing an unrecognized directive and an include
with a malformed line range preprocesses to itself with two warnings. -/
theorem preprocess_skips_bad_directives_witness :
    (∀ m ∈ findMatches
        ("a \x7b\x7b #foo x\x7d\x7d b \x7b\x7b #include f:z\x7d\x7d c").data,
      m.name ≠ "include" ∨ (Include.fromStr m.args).isOk = false)
    ∧ ((findDirectives
          ("a \x7b\x7b #foo x\x7d\x7d b \x7b\x7b #include f:z\x7d\x7d c").data).1 = []
      ∧ Page.preprocess (fun _ => none) ⟨[], RawConfig.default⟩
          ⟨["p.md"], FrontMatter.default,
            ("a \x7b\x7b #foo x\x7d\x7d b \x7b\x7b #include f:z\x7d\x7d c").data⟩ =
          .ok ⟨["p.md"], FrontMatter.default,
            ("a \x7b\x7b #foo x\x7d\x7d b \x7b\x7b #include f:z\x7d\x7d c").data⟩
      ∧ (findDirectives
          ("a \x7b\x7b #foo x\x7d\x7d b \x7b\x7b #include f:z\x7d\x7d c").data).2.length =
          (findMatches
            ("a \x7b\x7b #foo x\x7d\x7d b \x7b\x7b #include f:z\x7d\x7d c").data).length) :=
  ⟨by decide,
   preprocess_skips_bad_directives (fun _ => none) ⟨[], RawConfig.default⟩
     ⟨["p.md"], FrontMatter.default,
       ("a \x7b\x7b #foo x\x7d\x7d b \x7b\x7b #include f:z\x7d\x7d c").data⟩
     (by decide)⟩

/-- C5: line-range parsing and include extraction agree with the stated
mapping on every listed range shape, joining selected lines with a newline
and adding no trailing newline. -/
theorem line_range_and_extract_spec :
    LineRange.fromStr (some ("5").data) = .ok (.range 4 5)
    ∧ LineRange.fromStr (some ("5:").data) = .ok (.rangeFrom 4)
    ∧ LineRange.fromStr (some (":10").data) = .ok (.rangeTo 10)
    ∧ LineRange.fromStr (some ("5:10").data) = .ok (.range 4 10)
    ∧ LineRange.fromStr (some ("").data) = .ok .rangeFull
    ∧ LineRange.fromStr none = .ok .rangeFull
    ∧ Include.extract ("line 1\nline 2\nline 3").data .rangeFull =
        ("line 1\nline 2\nline 3").data
    ∧ Include.extract ("line 1\nline 2\nline 3").data (.range 0 1) = ("line 1").data
    ∧ Include.extract ("line 1\nline 2\nline 3").data (.rangeFrom 2) = ("line 3").data
    ∧ Include.extract ("line 1\nline 2\nline 3").data (.rangeFrom 3) = []
    ∧ Include.extract ("line 1\nline 2\nline 3").data (.rangeTo 0) = []
    ∧ Include.extract ("line 1\nline 2\nline 3").data (.rangeTo 2) =
        ("line 1\nline 2").data := by
  decide

/-- C9: whenever preprocessing succeeds, the resulting page keeps the input
page's path and front matter; only the contents may change. -/
theorem page_preprocess_frame (fs : Path → Option (List Char)) (config : Config)
    (page p : Page) (h : Page.preprocess fs config page = .ok p) :
    p.path = page.path ∧ p.front_matter = page.front_matter := by
  unfold Page.preprocess at h
  cases hp : Belong.preprocess fs config page.path page.contents with
  | ok c =>
    rw [hp] at h
    simp only [Except.ok.injEq] at h
    subst h
    exact ⟨rfl, rfl⟩
  | error e => rw [hp] at h; exact absurd h (by simp)

/-- C9 (witness): the frame property at a concrete page whose preprocessing
succeeds. -/
theorem page_preprocess_frame_witness :
    Page.preprocess (fun _ => none) ⟨[], RawConfig.default⟩
        ⟨["a.md"], FrontMatter.default, ("hi").data⟩ =
      .ok ⟨["a.md"], FrontMatter.default, ("hi").data⟩
    ∧ (Page.path ⟨["a.md"], FrontMatter.default, ("hi").data⟩ = ["a.md"]
      ∧ (Page.front_matter ⟨["a.md"], FrontMatter.default, ("hi").data⟩).title = none) :=
  ⟨rfl,
   by
    have h := page_preprocess_frame (fun _ => none) ⟨[], RawConfig.default⟩
      ⟨["a.md"], FrontMatter.default, ("hi").data⟩
      ⟨["a.md"], FrontMatter.default, ("hi").data⟩ rfl
    exact ⟨h.1, rfl⟩⟩

/-- C4: front-matter matching is anchored against the entire input: a
successful match decomposes the document into leading whitespace, `+++`,
the metadata body (group 1), `+++`, one or more line endings, and the rest
of the document to end-of-input; and no closing delimiter occurs after the
chosen one, so a triple-plus inside the metadata body is body text, never an
early close. -/
theorem front_matter_match_anchored {s g1 n g3 : List Char}
    (h : rawPageMatch s = some (g1, n, g3)) :
    (∃ w, (∀ c ∈ w, isWsChar c = true) ∧
      s = w ++ ['+', '+', '+'] ++ g1 ++ ['+', '+', '+'] ++ n ++ g3)
    ∧ isNlRun n = true ∧ n ≠ []
    ∧ ∀ k, g1.length < k → ¬ closeAt (g1 ++ ['+', '+', '+'] ++ n ++ g3) k :=
  rawPageMatch_spec h

/-- C4 (witness): a document whose body contains an embedded `+++\n` matches
with the embedded triple treated as body text and the final delimiter as the
close. -/
theorem front_matter_match_anchored_witness :
    rawPageMatch ("+++\nx\n+++\ny\n+++\nrest").data =
      some (("\nx\n+++\ny\n").data, ("\n").data, ("rest").data)
    ∧ ((∃ w, (∀ c ∈ w, isWsChar c = true) ∧
        ("+++\nx\n+++\ny\n+++\nrest").data =
          w ++ ['+', '+', '+'] ++ ("\nx\n+++\ny\n").data ++ ['+', '+', '+'] ++
            ("\n").data ++ ("rest").data)
      ∧ isNlRun ("\n").data = true ∧ ("\n").data ≠ []
      ∧ ∀ k, (("\nx\n+++\ny\n").data).length < k →
          ¬ closeAt (("\nx\n+++\ny\n").data ++ ['+', '+', '+'] ++ ("\n").data ++
            ("rest").data) k) :=
  have h : rawPageMatch ("+++\nx\n+++\ny\n+++\nrest").data =
      some (("\nx\n+++\ny\n").data, ("\n").data, ("rest").data) := by decide
  ⟨h, front_matter_match_anchored h⟩

/-- C7: a document containing no `+++`-delimited front-matter block parses to
all-default front matter with the content body identical to the entire
input. -/
theorem no_block_parses_default (pfm : List Char → Except Err FrontMatter)
    (s : List Char) (h : ¬ HasFrontMatterBlock s) :
    RawPage.fromStr pfm s = .ok ⟨FrontMatter.default, s⟩ := by
  cases hm : rawPageMatch s with
  | none => unfold RawPage.fromStr; rw [hm]
  | some x =>
    obtain ⟨g1, n, g3⟩ := x
    exact absurd (rawPageMatch_hasBlock hm) h

/-- C7 (witness): a plain document with no block at all parses to default
front matter and its own text. -/
theorem no_block_parses_default_witness :
    (¬ HasFrontMatterBlock ("just some text").data)
    ∧ RawPage.fromStr (fun _ => .ok FrontMatter.default) ("just some text").data =
        .ok ⟨FrontMatter.default, ("just some text").data⟩ :=
  have hnb : ¬ HasFrontMatterBlock ("just some text").data :=
    fun hb => absurd (hasBlock_mem_plus hb) (by decide)
  ⟨hnb, no_block_parses_default (fun _ => .ok FrontMatter.default) _ hnb⟩

theorem rawPageMatch_render (T : List Char) :
    rawPageMatch (['+', '+', '+', '\n'] ++ T ++ ['+', '+', '+', '\n']) =
      some ('\n' :: T, ['\n'], []) := by
  have hsplit : ['+', '+', '+', '\n'] ++ T ++ ['+', '+', '+', '\n'] =
      '+' :: '+' :: '+' :: (('\n' :: T) ++ ['+', '+', '+', '\n']) := by simp
  have hlen : (('\n' :: T) ++ (['+', '+', '+', '\n'] : List Char)).length =
      T.length + 5 := by simp
  have hdropj : ((('\n' :: T) ++ (['+', '+', '+', '\n'] : List Char))).drop
      (T.length + 1) = ['+', '+', '+', '\n'] :=
    List.drop_left' (by simp)
  have htake : ((('\n' :: T) ++ (['+', '+', '+', '\n'] : List Char))).take
      (T.length + 1) = '\n' :: T :=
    List.take_left' (by simp)
  have hdrop4 : ((('\n' :: T) ++ (['+', '+', '+', '\n'] : List Char))).drop
      (T.length + 1 + 3) = ['\n'] := by
    rw [← List.drop_drop, hdropj]
    rfl
  have hcl : closeAt (('\n' :: T) ++ ['+', '+', '+', '\n']) (T.length + 1) := by
    constructor
    · rw [hdropj]
      rfl
    · rw [hdrop4]
      decide
  have hmax : ∀ i, T.length + 1 < i →
      i ≤ (('\n' :: T) ++ (['+', '+', '+', '\n'] : List Char)).length →
      ¬ closeAt (('\n' :: T) ++ ['+', '+', '+', '\n']) i := by
    intro i h1 h2 hcli
    rw [hlen] at h2
    obtain ⟨d, hd⟩ : ∃ d, i = (T.length + 1) + d := ⟨i - (T.length + 1), by omega⟩
    subst hd
    have hd1 : 1 ≤ d := by omega
    have hd4 : d ≤ 4 := by omega
    have hcl1 := hcli.1
    rw [← List.drop_drop, hdropj] at hcl1
    interval_cases d <;> exact absurd hcl1 (by decide)
  have hlast : lastClose (('\n' :: T) ++ ['+', '+', '+', '\n'])
      (('\n' :: T) ++ (['+', '+', '+', '\n'] : List Char)).length =
      some (T.length + 1) :=
    lastClose_eq_some hcl (by rw [hlen]; omega) hmax
  simp only [rawPageMatch, hsplit]
  rw [if_pos (show ((('+' :: '+' :: '+' :: (('\n' :: T) ++ ['+', '+', '+', '\n'])) :
      List Char).dropWhile isWsChar).take 3 = ['+', '+', '+'] from rfl)]
  rw [show (('+' :: '+' :: '+' :: (('\n' :: T) ++ ['+', '+', '+', '\n'])) :
        List Char).dropWhile isWsChar =
      '+' :: '+' :: '+' :: (('\n' :: T) ++ ['+', '+', '+', '\n']) from rfl,
    show (('+' :: '+' :: '+' :: (('\n' :: T) ++ ['+', '+', '+', '\n'])) :
        List Char).drop 3 = ('\n' :: T) ++ ['+', '+', '+', '\n'] from rfl,
    hlast]
  show some ((('\n' :: T) ++ ['+', '+', '+', '\n']).take (T.length + 1),
      ((('\n' :: T) ++ ['+', '+', '+', '\n']).drop (T.length + 1 + 3)).take
        (newlineMunch ((('\n' :: T) ++ ['+', '+', '+', '\n']).drop (T.length + 1 + 3))),
      ((('\n' :: T) ++ ['+', '+', '+', '\n']).drop (T.length + 1 + 3)).drop
        (newlineMunch ((('\n' :: T) ++ ['+', '+', '+', '\n']).drop (T.length + 1 + 3)))) =
    some ('\n' :: T, ['\n'], [])
  rw [hdrop4, htake]
  rfl

/-- C8: serializing a front matter to its `+++`-delimited display form and
re-parsing that text recovers the same front matter (and empty contents),
given that the external TOML codec round-trips the value and ignores a
leading newline. -/
theorem front_matter_round_trip (ser : FrontMatter → List Char)
    (pfm : List Char → Except Err FrontMatter) (fm : FrontMatter)
    (h1 : pfm (ser fm) = .ok fm)
    (h2 : pfm ('\n' :: ser fm) = pfm (ser fm)) :
    RawPage.fromStr pfm (FrontMatter.render ser fm) = .ok ⟨fm, []⟩ := by
  unfold RawPage.fromStr FrontMatter.render
  rw [rawPageMatch_render (ser fm)]
  show (match pfm ('\n' :: ser fm) with
    | .ok fm2 => Except.ok (⟨fm2, []⟩ : RawPage)
    | .error e => Except.error (e.withContext "failed to parse front matter")) =
    .ok ⟨fm, []⟩
  rw [h2, h1]

/-- C8 (witness): the round trip at a trivial codec and the default front
matter. -/
theorem front_matter_round_trip_witness :
    ((fun (_ : List Char) => (.ok FrontMatter.default : Except Err FrontMatter))
        ((fun (_ : FrontMatter) => ([] : List Char)) FrontMatter.default) =
      .ok FrontMatter.default)
    ∧ RawPage.fromStr (fun _ => .ok FrontMatter.default)
        (FrontMatter.render (fun _ => []) FrontMatter.default) =
      .ok ⟨FrontMatter.default, []⟩ :=
  ⟨rfl, front_matter_round_trip (fun _ => []) (fun _ => .ok FrontMatter.default)
    FrontMatter.default rfl rfl⟩

theorem urlPathToRootGo_normal :
    ∀ (l : List String) (acc : String), (∀ s ∈ l, isNormalSeg s = true) →
      urlPathToRootGo l acc = some (acc ++ upDirs l.length) := by
  intro l
  induction l with
  | nil => intro acc _; simp [urlPathToRootGo, upDirs]
  | cons c rest ih =>
    intro acc h
    have hc := h c (List.mem_cons_self c rest)
    simp only [urlPathToRootGo, hc, if_pos]
    rw [ih (acc ++ "../") (fun s hs => h s (List.mem_cons_of_mem c hs))]
    simp only [List.length_cons, upDirs]
    rw [String.append_assoc]

/-- C6: for a nonempty page path of normal relative segments, the derived URL
is the path with the last segment's extension replaced by `.html` and the
segments joined by `/`, and the root-relative prefix is `../` repeated once
per parent-directory segment. -/
theorem url_derivation (p : Path) (h1 : p ≠ [])
    (h2 : ∀ s ∈ p, isNormalSeg s = true) :
    Page.url_path p =
      String.intercalate "/" (p.dropLast ++
        [String.mk (fileStemChars (p.getLast h1).data) ++ "." ++ "html"])
    ∧ Page.url_path_to_root p = some (upDirs (p.length - 1)) := by
  constructor
  · unfold Page.url_path withExtension
    rw [List.getLast?_eq_getLast p h1]
    have hne : ¬ (p.getLast h1 = "..") := by
      have hseg := h2 (p.getLast h1) (List.getLast_mem h1)
      simp only [isNormalSeg, Bool.and_eq_true, bne_iff_ne, Ne] at hseg
      tauto
    simp only [hne, if_neg, not_false_iff]
  · unfold Page.url_path_to_root
    cases p with
    | nil => exact absurd rfl h1
    | cons a l =>
      show urlPathToRootGo (a :: l).dropLast "" = some (upDirs ((a :: l).length - 1))
      rw [urlPathToRootGo_normal (a :: l).dropLast ""
        (fun s hs => h2 s (List.mem_of_mem_dropLast hs))]
      rw [List.length_dropLast]
      rfl

/-- C6 (witness): the two URL-derivation examples: `index.md` and
`path/segment/index.md`. -/
theorem url_derivation_witness :
    (["path", "segment", "index.md"] ≠ ([] : Path))
    ∧ Page.url_path ["path", "segment", "index.md"] = "path/segment/index.html"
    ∧ Page.url_path_to_root ["path", "segment", "index.md"] = some ("../../")
    ∧ Page.url_path ["index.md"] = "index.html"
    ∧ Page.url_path_to_root ["index.md"] = some ("") := by
  have ha := url_derivation ["path", "segment", "index.md"] (by decide) (by decide)
  have hb := url_derivation ["index.md"] (by decide) (by decide)
  refine ⟨by decide, ?_, ?_, ?_, ?_⟩
  · rw [ha.1]; decide
  · rw [ha.2]; decide
  · rw [hb.1]; decide
  · rw [hb.2]; decide

/-- C10: an include line-range start of `0` is accepted: parsing `"0"` yields
the range selecting the first line only, exactly as parsing `"1"` does,
because the 1-based adjustment uses saturating subtraction. -/
theorem line_range_zero_start :
    LineRange.fromStr (some ("0").data) = .ok (.range 0 1)
    ∧ LineRange.fromStr (some ("1").data) = .ok (.range 0 1) := by
  decide

end Belong
